import Mathlib

/-!
Verification of the MDView core text engine: a shallow embedding of the
Markdown-to-terminal renderer (`src/terminal.rs`), the terminal capability
detection model, and the parser-option configuration of the HTML and
plain-text converters (`src/markdown.rs`), together with theorems settling
the frozen claims about the natural-language specification.

Rust `String`s are modelled as `List Char` (`Str`); `u64`/`usize` as `Nat`
(all arithmetic here is far from overflow: widths, list indices and quote
depths only grow by small increments, and Rust `saturating_sub` maps to
`Nat` subtraction, which saturates at 0 by definition).
-/

/-- Rust `String` / `&str`, modelled as a list of characters. -/
abbrev Str := List Char

/-- Decimal digit character, mirroring the behaviour of Rust's `Display`
for unsigned integers (only values 0-9 occur; larger arguments yield the
canary `*`, mirroring `Nat.digitChar`'s fallback, and never arise). -/
def digitCh : Nat → Char
  | 0 => '0' | 1 => '1' | 2 => '2' | 3 => '3' | 4 => '4'
  | 5 => '5' | 6 => '6' | 7 => '7' | 8 => '8' | 9 => '9'
  | _ + 10 => '*'

/-- Fuel-driven decimal printer; fuel bounds the number of digits. -/
def reprAux : Nat → Nat → Str
  | 0, _ => []
  | fuel + 1, n => if n < 10 then [digitCh n] else reprAux fuel (n / 10) ++ [digitCh (n % 10)]

/-- Decimal representation of a natural number, as emitted by Rust's
`format!("{}", n)` for `u64` values. -/
def natRepr (n : Nat) : Str := reprAux (n + 1) n

/-- Substring test: does `pat` occur contiguously inside `l`?  Models
Rust's `str::contains` on our character-list strings. -/
def isSub (pat l : Str) : Bool := l.tails.any (fun t => pat.isPrefixOf t)

/-- Occurrence count of a pattern inside a string (overlaps counted);
used only to state properties of concrete outputs. -/
def countSub (pat l : Str) : Nat := (l.tails.filter (fun t => pat.isPrefixOf t)).length

/-- Terminal capabilities detected at runtime (`TerminalCaps` in
`src/terminal.rs`). -/
structure TerminalCaps where
  true_color : Bool
  hyperlinks : Bool
  unicode : Bool
  basic_ansi : Bool
deriving DecidableEq, Repr

/-- Model of `TerminalCaps::basic`: force basic mode (no colors, no unicode). -/
def TerminalCaps.basic : TerminalCaps :=
  { true_color := false, hyperlinks := false, unicode := false, basic_ansi := false }

/-- A snapshot of the environment signals `TerminalCaps::detect` reads:
whether `WT_SESSION` / `VSCODE_INJECTION` / `ConEmuPID` are set, the value
of `TERM_PROGRAM` (if set), the values of `COLORTERM` and `TERM`
(`unwrap_or_default`, so absent means empty), and the compile-time
`cfg!(windows)` flag. -/
structure Env where
  wt_session : Bool
  vscode_injection : Bool
  term_program : Option Str
  conemu_pid : Bool
  colorterm : Str
  term : Str
  windows : Bool
deriving DecidableEq

/-- Model of `TerminalCaps::detect`: detect terminal capabilities from the
environment snapshot, translated branch for branch from
`src/terminal.rs` lines 17-80. -/
def TerminalCaps.detect (env : Env) : TerminalCaps :=
  let is_windows_terminal := env.wt_session
  let is_vscode := env.vscode_injection || (env.term_program == some ("vscode".data))
  let is_conemu := env.conemu_pid
  if is_windows_terminal then
    { true_color := true, hyperlinks := true, unicode := true, basic_ansi := true }
  else if is_vscode then
    { true_color := true, hyperlinks := true, unicode := true, basic_ansi := true }
  else if is_conemu then
    { true_color := true, hyperlinks := true, unicode := true, basic_ansi := true }
  else
    let true_color := env.colorterm == ("truecolor".data) || env.colorterm == ("24bit".data)
      || isSub ("256color".data) env.term || isSub ("truecolor".data) env.term
      || env.windows
    let hyperlinks := isSub ("xterm".data) env.term || isSub ("vte".data) env.term
      || isSub ("kitty".data) env.term || isSub ("iterm".data) env.term
    let unicode := !env.term.isEmpty || env.windows
    let basic_ansi := !env.term.isEmpty || env.windows
    { true_color := true_color, hyperlinks := hyperlinks,
      unicode := unicode, basic_ansi := basic_ansi }

namespace ansi

def RESET : Str := "\x1b[0m".data
def BOLD : Str := "\x1b[1m".data
def DIM : Str := "\x1b[2m".data
def ITALIC : Str := "\x1b[3m".data
def UNDERLINE : Str := "\x1b[4m".data
def STRIKETHROUGH : Str := "\x1b[9m".data
def FG_RED : Str := "\x1b[31m".data
def FG_GREEN : Str := "\x1b[32m".data
def FG_YELLOW : Str := "\x1b[33m".data
def FG_BLUE : Str := "\x1b[34m".data
def FG_MAGENTA : Str := "\x1b[35m".data
def FG_CYAN : Str := "\x1b[36m".data
def FG_WHITE : Str := "\x1b[37m".data
def FG_GRAY : Str := "\x1b[90m".data
def BG_GRAY : Str := "\x1b[100m".data

/-- True color foreground (24-bit RGB): `format!("\x1b[38;2;{};{};{}m", r, g, b)`. -/
def fg_rgb (r g b : Nat) : Str :=
  "\x1b[38;2;".data ++ natRepr r ++ ";".data ++ natRepr g ++ ";".data ++ natRepr b ++ "m".data

/-- True color background (24-bit RGB): `format!("\x1b[48;2;{};{};{}m", r, g, b)`. -/
def bg_rgb (r g b : Nat) : Str :=
  "\x1b[48;2;".data ++ natRepr r ++ ";".data ++ natRepr g ++ ";".data ++ natRepr b ++ "m".data

/-- OSC 8 hyperlink start: `format!("\x1b]8;;{}\x1b\\", url)`. -/
def hyperlink_start (url : Str) : Str := "\x1b]8;;".data ++ url ++ "\x1b\\".data

/-- OSC 8 hyperlink end. -/
def HYPERLINK_END : Str := "\x1b]8;;\x1b\\".data

end ansi

namespace uni

def BULLET : Char := '•'
def CHECKBOX_UNCHECKED : Str := "☐".data
def CHECKBOX_CHECKED : Str := "☑".data
def QUOTE_BAR : Str := "│".data
def HORIZONTAL_LINE : Str := "─".data
def TABLE_TOP_LEFT : Char := '┌'
def TABLE_TOP_RIGHT : Char := '┐'
def TABLE_BOTTOM_LEFT : Char := '└'
def TABLE_BOTTOM_RIGHT : Char := '┘'
def TABLE_HORIZONTAL : Char := '─'
def TABLE_VERTICAL : Char := '│'
def TABLE_CROSS : Char := '┼'
def TABLE_T_DOWN : Char := '┬'
def TABLE_T_UP : Char := '┴'
def TABLE_T_RIGHT : Char := '├'
def TABLE_T_LEFT : Char := '┤'

end uni

/-- The parser extension flags the converters enable on the pulldown-cmark
`Options` bitset (only the four flags this repository ever touches). -/
structure ParserOptions where
  tables : Bool
  footnotes : Bool
  strikethrough : Bool
  tasklists : Bool
deriving DecidableEq, Repr

/-- Model of `Options::empty()`. -/
def ParserOptions.empty : ParserOptions :=
  { tables := false, footnotes := false, strikethrough := false, tasklists := false }

/-- Parser options of `render_to_terminal` (`src/terminal.rs` lines 157-161):
`Options::empty()` followed by inserting TABLES, FOOTNOTES, STRIKETHROUGH,
TASKLISTS. -/
def terminalOptions : ParserOptions :=
  { tables := true, footnotes := true, strikethrough := true, tasklists := true }

/-- Parser options of `markdown_to_html` (`src/markdown.rs` lines 4-8):
same four insertions. -/
def htmlOptions : ParserOptions :=
  { tables := true, footnotes := true, strikethrough := true, tasklists := true }

/-- Parser options of `markdown_to_plain_text` (`src/markdown.rs` line 125):
`Options::empty()` with no insertions. -/
def plainTextOptions : ParserOptions := ParserOptions.empty

/-- Heading levels H1-H6 (pulldown-cmark `HeadingLevel`). -/
inductive HeadingLevel
  | h1 | h2 | h3 | h4 | h5 | h6
deriving DecidableEq, Repr

/-- pulldown-cmark `CodeBlockKind`: indented, or fenced with a language label. -/
inductive CodeBlockKind
  | indented
  | fenced (lang : Str)
deriving DecidableEq, Repr

/-- The structural kinds carried by `Event::Start`, restricted to the
fields the renderer reads; every unread payload (alignments, link types,
ids) is dropped, and every tag the renderer ignores via its `_ => {}` arm
is collapsed into `other`. -/
inductive Tag
  | heading (level : HeadingLevel)
  | paragraph
  | emphasis
  | strong
  | strikethrough
  | codeBlock (kind : CodeBlockKind)
  | blockQuote
  | list (start : Option Nat)
  | item
  | link (dest_url : Str) (title : Str)
  | image (dest_url : Str) (title : Str)
  | table
  | tableHead
  | tableRow
  | tableCell
  | other
deriving DecidableEq, Repr

/-- The kinds carried by `Event::End`; the renderer ignores every payload
of `TagEnd` (matching `TagEnd::Heading(_)` etc.), so none is modelled. -/
inductive TagEnd
  | heading
  | paragraph
  | emphasis
  | strong
  | strikethrough
  | codeBlock
  | blockQuote
  | list
  | item
  | link
  | table
  | tableHead
  | tableRow
  | tableCell
  | other
deriving DecidableEq, Repr

/-- pulldown-cmark `Event`, restricted to the variants
`TerminalRenderer::process_event` matches on; all remaining variants
(inline HTML, footnote references, ...) fall into the `_ => {}` arm and
are collapsed into `other`. -/
inductive Event
  | start (tag : Tag)
  | end' (tag : TagEnd)
  | text (s : Str)
  | code (s : Str)
  | softBreak
  | hardBreak
  | rule
  | taskListMarker (checked : Bool)
  | other
deriving DecidableEq, Repr

/-- Model of `TerminalRenderer`: the renderer's mutable state (`src/terminal.rs`
lines 173-195). -/
structure RendererState where
  caps : TerminalCaps
  output : Str
  in_heading : Option HeadingLevel
  in_emphasis : Bool
  in_strong : Bool
  in_strikethrough : Bool
  in_code_block : Bool
  in_block_quote : Nat
  in_list : Bool
  list_index : Option Nat
  pending_link : Option (Str × Str)
  link_text : Str
  in_table : Bool
  table_row : List Str
  table_rows : List (List Str)
  in_table_head : Bool
  current_cell : Str
deriving DecidableEq, Repr

/-- Model of `TerminalRenderer::new`. -/
def RendererState.new (caps : TerminalCaps) : RendererState where
  caps := caps
  output := []
  in_heading := none
  in_emphasis := false
  in_strong := false
  in_strikethrough := false
  in_code_block := false
  in_block_quote := 0
  in_list := false
  list_index := none
  pending_link := none
  link_text := []
  in_table := false
  table_row := []
  table_rows := []
  in_table_head := false
  current_cell := []

/-- Model of `self.output.push(c)`. -/
def RendererState.push (s : RendererState) (c : Char) : RendererState :=
  { s with output := s.output ++ [c] }

/-- Model of `self.output.push_str(t)`. -/
def RendererState.push_str (s : RendererState) (t : Str) : RendererState :=
  { s with output := s.output ++ t }

/-- The block-quote bars emitted by the `for _ in 0..depth` loop of the
blockquote-prefix writer: one quote bar and a space per nesting level. -/
def bqBars (unicode : Bool) : Nat → Str
  | 0 => []
  | d + 1 => (if unicode then uni.QUOTE_BAR else "|".data) ++ " ".data ++ bqBars unicode d

/-- Model of `TerminalRenderer::write_blockquote_prefix` (shortened name). -/
def RendererState.writeBqPref (s : RendererState) : RendererState :=
  if s.in_block_quote > 0 then
    let s := if s.caps.basic_ansi then s.push_str ansi.FG_GRAY else s
    let s := s.push_str (bqBars s.caps.unicode s.in_block_quote)
    if s.caps.basic_ansi then s.push_str ansi.RESET else s
  else s

/-- Model of `TerminalRenderer::restore_styles`: re-emit the escapes of every
still-active inline style. -/
def RendererState.restore_styles (s : RendererState) : RendererState :=
  let s := if s.in_strong then s.push_str ansi.BOLD else s
  let s := if s.in_emphasis then s.push_str ansi.ITALIC else s
  if s.in_strikethrough then s.push_str ansi.STRIKETHROUGH else s

/-- One pass of the width-collection loop body: for each `(i, cell)` of a
row with `i < col_widths.len()`, raise `col_widths[i]` to the cell's
character count. -/
def updWidths : List Nat → List Str → List Nat
  | ws, [] => ws
  | [], _ => []
  | w :: ws, c :: cs => max w c.length :: updWidths ws cs

/-- Column widths of `render_table`: column count is the maximum row
length (`unwrap_or(0)`), each width the maximum cell character count of
that column, floored at 3. -/
def tableColWidths (rows : List (List Str)) : List Nat :=
  let col_count := (rows.map List.length).foldl max 0
  (rows.foldl updWidths (List.replicate col_count 0)).map (fun w => max w 3)

/-- Model of `h.to_string().repeat(width + 2)`: the filler run of one border column. -/
def hseg (fill : Char) (w : Nat) : Str := List.replicate (w + 2) fill

/-- The inside of a border line: a filler run per column, with the
separator glyph between adjacent columns (`if i < len - 1`). -/
def borderInner (fill sep : Char) : List Nat → Str
  | [] => []
  | [w] => hseg fill w
  | w :: w2 :: ws => hseg fill w ++ [sep] ++ borderInner fill sep (w2 :: ws)

/-- A full border line: left corner, column runs with separators, right
corner, newline. -/
def borderLine (l r fill sep : Char) (ws : List Nat) : Str :=
  [l] ++ borderInner fill sep ws ++ [r] ++ "\n".data

/-- One table cell as emitted inside a row: a space, the cell (bolded when
it is a header cell and basic ANSI is on), `padding + 1` spaces where
`padding = width - cell-length` (saturating), then the vertical bar. -/
def cellSeg (hdr : Bool) (v : Char) (w : Nat) (cell : Str) : Str :=
  " ".data ++ (if hdr then ansi.BOLD else []) ++ cell ++ (if hdr then ansi.RESET else [])
    ++ List.replicate ((w - cell.length) + 1) ' ' ++ [v]

/-- The per-column loop of a row line: iterate over the widths, reading
the matching cell via `row.get(i).unwrap_or("")`. -/
def rowInner (hdr : Bool) (v : Char) : List Nat → List Str → Str
  | [], _ => []
  | w :: ws, [] => cellSeg hdr v w [] ++ rowInner hdr v ws []
  | w :: ws, c :: cs => cellSeg hdr v w c ++ rowInner hdr v ws cs

/-- A full row line: leading vertical bar, the cells, newline. -/
def rowLine (hdr : Bool) (v : Char) (ws : List Nat) (row : List Str) : Str :=
  [v] ++ rowInner hdr v ws row ++ "\n".data

/-- The body rows after the header (row indices greater than 0, never bolded). -/
def bodyRows (v : Char) (ws : List Nat) : List (List Str) → Str
  | [] => []
  | r :: rs => rowLine false v ws r ++ bodyRows v ws rs

/-- The row loop of `render_table`: the first buffered row (index 0,
bolded when basic ANSI is on) followed by the header/body separator line,
then the remaining rows. -/
def rowsSection (basicAnsi : Bool) (v tleft cross tright h : Char) (ws : List Nat) :
    List (List Str) → Str
  | [] => []
  | first :: rest =>
    rowLine basicAnsi v ws first
      ++ borderLine tleft tright h cross ws
      ++ bodyRows v ws rest

/-- The whole string appended by a non-empty `render_table` call: top
border, rows with the separator after row 0, bottom border, blank line.
Box-drawing glyphs when `unicode` is set, else ASCII `-`/`|`/`+`. -/
def renderTableStr (caps : TerminalCaps) (rows : List (List Str)) : Str :=
  let ws := tableColWidths rows
  if caps.unicode then
    borderLine uni.TABLE_TOP_LEFT uni.TABLE_TOP_RIGHT uni.TABLE_HORIZONTAL uni.TABLE_T_DOWN ws
      ++ rowsSection caps.basic_ansi uni.TABLE_VERTICAL uni.TABLE_T_RIGHT uni.TABLE_CROSS
          uni.TABLE_T_LEFT uni.TABLE_HORIZONTAL ws rows
      ++ borderLine uni.TABLE_BOTTOM_LEFT uni.TABLE_BOTTOM_RIGHT uni.TABLE_HORIZONTAL
          uni.TABLE_T_UP ws
      ++ "\n".data
  else
    borderLine '+' '+' '-' '+' ws
      ++ rowsSection caps.basic_ansi '|' '+' '+' '+' '-' ws rows
      ++ borderLine '+' '+' '-' '+' ws
      ++ "\n".data

/-- Model of `TerminalRenderer::render_table`: a no-op when no rows were buffered,
else append the rendered grid to `output`. -/
def RendererState.render_table (s : RendererState) : RendererState :=
  if s.table_rows.isEmpty then s
  else { s with output := s.output ++ renderTableStr s.caps s.table_rows }

/-- Split a string at every newline; the result always has one more
segment than the string has newlines (a trailing newline yields a
trailing empty segment). -/
def linesOf : Str → List Str
  | [] => [[]]
  | c :: rest =>
    if c = '\n' then [] :: linesOf rest
    else
      match linesOf rest with
      | [] => [[c]]
      | l :: ls => (c :: l) :: ls

/-- Strip one trailing carriage return, as Rust's `str::lines` does per line. -/
def stripCR (l : Str) : Str := if l.getLast? == some '\r' then l.dropLast else l

/-- Rust `str::lines()`: split on `\n`, no trailing empty line for a
trailing newline, `\r\n` treated like `\n`. -/
def rustLines (s : Str) : List Str :=
  if s.isEmpty then []
  else (if s.getLast? == some '\n' then (linesOf s).dropLast else linesOf s).map stripCR

/-- The code-block text loop: each line indented by two spaces and
terminated with a newline. -/
def codeIndented : List Str → Str
  | [] => []
  | l :: ls => "  ".data ++ l ++ "\n".data ++ codeIndented ls

/-- Model of `TerminalRenderer::text`: route a text run to the pending-link
buffer, the current table cell, the indented code block, or `output`. -/
def RendererState.text (s : RendererState) (t : Str) : RendererState :=
  if s.pending_link.isSome then { s with link_text := s.link_text ++ t }
  else if s.in_table then { s with current_cell := s.current_cell ++ t }
  else if s.in_code_block then s.push_str (codeIndented (rustLines t))
  else s.push_str t

/-- Model of `TerminalRenderer::inline_code`. -/
def RendererState.inline_code (s : RendererState) (code : Str) : RendererState :=
  if s.in_table then
    { s with current_cell := s.current_cell ++ "`".data ++ code ++ "`".data }
  else
    let s :=
      if s.caps.basic_ansi then
        if s.caps.true_color then
          s.push_str (ansi.bg_rgb 40 44 52 ++ ansi.fg_rgb 230 192 123)
        else
          s.push_str (ansi.BG_GRAY ++ ansi.FG_YELLOW)
      else s
    let s := s.push_str (" ".data ++ code ++ " ".data)
    if s.caps.basic_ansi then s.push_str ansi.RESET else s

/-- Model of `TerminalRenderer::soft_break`. -/
def RendererState.soft_break (s : RendererState) : RendererState :=
  if s.pending_link.isSome then { s with link_text := s.link_text ++ " ".data }
  else if s.in_table then { s with current_cell := s.current_cell ++ " ".data }
  else s.push ' '

/-- Model of `TerminalRenderer::hard_break`. -/
def RendererState.hard_break (s : RendererState) : RendererState :=
  (s.push '\n').writeBqPref

/-- Model of `TerminalRenderer::horizontal_rule`. -/
def RendererState.horizontal_rule (s : RendererState) : RendererState :=
  let s := s.push '\n'
  let s := if s.caps.basic_ansi then s.push_str ansi.DIM else s
  let line :=
    if s.caps.unicode then List.flatten (List.replicate 40 uni.HORIZONTAL_LINE)
    else List.flatten (List.replicate 40 ("-".data))
  let s := s.push_str line
  let s := if s.caps.basic_ansi then s.push_str ansi.RESET else s
  s.push_str "\n\n".data

/-- Model of `TerminalRenderer::task_list_marker`. -/
def RendererState.task_list_marker (s : RendererState) (checked : Bool) : RendererState :=
  let marker :=
    if s.caps.unicode then
      if checked then uni.CHECKBOX_CHECKED else uni.CHECKBOX_UNCHECKED
    else
      if checked then "[x]".data else "[ ]".data
  let s :=
    if s.caps.basic_ansi then
      if checked then s.push_str ansi.FG_GREEN else s.push_str ansi.DIM
    else s
  let s := s.push_str marker
  let s := s.push ' '
  if s.caps.basic_ansi then s.push_str ansi.RESET else s

/-- Model of `TerminalRenderer::start_tag`. -/
def RendererState.start_tag (s : RendererState) (tag : Tag) : RendererState :=
  match tag with
  | .heading level =>
    let s := { s with in_heading := some level }
    let s := s.push '\n'
    if s.caps.basic_ansi then
      let color :=
        match level with
        | .h1 => ansi.FG_MAGENTA
        | .h2 => ansi.FG_BLUE
        | .h3 => ansi.FG_CYAN
        | _ => ansi.FG_GREEN
      s.push_str (ansi.BOLD ++ color)
    else s
  | .paragraph =>
    let s :=
      if !s.output.isEmpty && !(s.output.getLast? == some '\n') then s.push '\n' else s
    s.writeBqPref
  | .emphasis =>
    let s := { s with in_emphasis := true }
    if s.caps.basic_ansi then s.push_str ansi.ITALIC else s
  | .strong =>
    let s := { s with in_strong := true }
    if s.caps.basic_ansi then s.push_str ansi.BOLD else s
  | .strikethrough =>
    let s := { s with in_strikethrough := true }
    if s.caps.basic_ansi then s.push_str ansi.STRIKETHROUGH else s
  | .codeBlock kind =>
    let s := { s with in_code_block := true }
    let s := s.push '\n'
    let s :=
      if s.caps.basic_ansi then
        if s.caps.true_color then
          s.push_str (ansi.bg_rgb 40 44 52 ++ ansi.fg_rgb 171 178 191)
        else
          s.push_str ansi.BG_GRAY
      else s
    match kind with
    | .fenced lang =>
      if !lang.isEmpty then
        let s := if s.caps.basic_ansi then s.push_str ansi.DIM else s
        let s := s.push_str ("  ".data ++ lang ++ "\n".data)
        if s.caps.basic_ansi then
          let s := s.push_str ansi.RESET
          if s.caps.true_color then
            s.push_str (ansi.bg_rgb 40 44 52 ++ ansi.fg_rgb 171 178 191)
          else
            s.push_str ansi.BG_GRAY
        else s
      else s
    | .indented => s
  | .blockQuote =>
    let s := { s with in_block_quote := s.in_block_quote + 1 }
    if !(s.output.getLast? == some '\n') then s.push '\n' else s
  | .list start =>
    let s := { s with in_list := true, list_index := start }
    if !(s.output.getLast? == some '\n') then s.push '\n' else s
  | .item =>
    let s := s.writeBqPref
    match s.list_index with
    | some idx =>
      let s := s.push_str (" ".data ++ natRepr idx ++ ". ".data)
      { s with list_index := some (idx + 1) }
    | none =>
      if s.caps.unicode then s.push_str (" ".data ++ [uni.BULLET] ++ " ".data)
      else s.push_str (" * ".data)
  | .link dest_url title =>
    { s with pending_link := some (dest_url, title), link_text := [] }
  | .image dest_url title =>
    let s := if s.caps.basic_ansi then s.push_str ansi.DIM else s
    let s := s.push_str ("[Image: ".data ++ dest_url ++ " ".data)
    let s :=
      if !title.isEmpty then s.push_str ("\"".data ++ title ++ "\" ".data) else s
    let s := s.push ']'
    if s.caps.basic_ansi then s.push_str ansi.RESET else s
  | .table =>
    let s := { s with in_table := true, table_rows := [] }
    if !(s.output.getLast? == some '\n') then s.push '\n' else s
  | .tableHead => { s with in_table_head := true, table_row := [] }
  | .tableRow => { s with table_row := [] }
  | .tableCell => { s with current_cell := [] }
  | .other => s

/-- Model of `TerminalRenderer::end_tag`. -/
def RendererState.end_tag (s : RendererState) (tag : TagEnd) : RendererState :=
  match tag with
  | .heading =>
    let s := if s.caps.basic_ansi then s.push_str ansi.RESET else s
    let s := s.push_str "\n\n".data
    { s with in_heading := none }
  | .paragraph => s.push_str "\n\n".data
  | .emphasis =>
    let s := { s with in_emphasis := false }
    if s.caps.basic_ansi then (s.push_str ansi.RESET).restore_styles else s
  | .strong =>
    let s := { s with in_strong := false }
    if s.caps.basic_ansi then (s.push_str ansi.RESET).restore_styles else s
  | .strikethrough =>
    let s := { s with in_strikethrough := false }
    if s.caps.basic_ansi then (s.push_str ansi.RESET).restore_styles else s
  | .codeBlock =>
    let s := { s with in_code_block := false }
    let s := if s.caps.basic_ansi then s.push_str ansi.RESET else s
    s.push '\n'
  | .blockQuote => { s with in_block_quote := s.in_block_quote - 1 }
  | .list => { s with in_list := false, list_index := none }
  | .item =>
    if !(s.output.getLast? == some '\n') then s.push '\n' else s
  | .link =>
    match s.pending_link with
    | some (url, _title) =>
      let s := { s with pending_link := none }
      let s :=
        if s.caps.hyperlinks then
          let s := s.push_str (ansi.hyperlink_start url)
          let s :=
            if s.caps.basic_ansi then s.push_str (ansi.FG_BLUE ++ ansi.UNDERLINE) else s
          let s := s.push_str s.link_text
          let s := if s.caps.basic_ansi then s.push_str ansi.RESET else s
          s.push_str ansi.HYPERLINK_END
        else
          let s :=
            if s.caps.basic_ansi then s.push_str (ansi.FG_BLUE ++ ansi.UNDERLINE) else s
          let s := s.push_str s.link_text
          let s := if s.caps.basic_ansi then s.push_str ansi.RESET else s
          let s := if s.caps.basic_ansi then s.push_str ansi.DIM else s
          let s := s.push_str (" (".data ++ url ++ ")".data)
          if s.caps.basic_ansi then s.push_str ansi.RESET else s
      { s with link_text := [] }
    | none => { s with link_text := [] }
  | .table =>
    let s := s.render_table
    { s with in_table := false }
  | .tableHead =>
    let s := { s with in_table_head := false }
    { s with table_rows := s.table_rows ++ [s.table_row] }
  | .tableRow =>
    if !s.in_table_head then { s with table_rows := s.table_rows ++ [s.table_row] }
    else s
  | .tableCell => { s with table_row := s.table_row ++ [s.current_cell] }
  | .other => s

/-- Model of `TerminalRenderer::process_event`. -/
def RendererState.process_event (s : RendererState) (e : Event) : RendererState :=
  match e with
  | .start tag => s.start_tag tag
  | .end' tag => s.end_tag tag
  | .text t => s.text t
  | .code c => s.inline_code c
  | .softBreak => s.soft_break
  | .hardBreak => s.hard_break
  | .rule => s.horizontal_rule
  | .taskListMarker checked => s.task_list_marker checked
  | .other => s

/-- The `while self.output.ends_with("\n\n") { self.output.pop(); }` loop
of `finish`, acting on the reversed buffer: while the last two characters
(the first two of the reverse) are both newlines, drop the last one. -/
def trimRev : Str → Str
  | [] => []
  | [c] => [c]
  | a :: b :: rest =>
    if a == '\n' && b == '\n' then trimRev (b :: rest) else a :: b :: rest

/-- Model of `TerminalRenderer::finish`: trim trailing blank lines, then ensure a
single trailing newline. -/
def RendererState.finish (s : RendererState) : Str :=
  let o := (trimRev s.output.reverse).reverse
  if o.getLast? == some '\n' then o else o ++ "\n".data

/-- Model of `render_to_terminal`, with the event stream produced by the external
parser taken as the input: feed every event through the renderer, then
finalize. -/
def renderEvents (evs : List Event) (caps : TerminalCaps) : Str :=
  (evs.foldl RendererState.process_event (RendererState.new caps)).finish

/-- A profile with only basic ANSI styling on (legacy terminal with escape
support but no OSC-8, no true color, no Unicode). -/
def ansiOnlyCaps : TerminalCaps :=
  { true_color := false, hyperlinks := false, unicode := false, basic_ansi := true }

/-- A profile with only OSC-8 hyperlinks on. -/
def oscOnlyCaps : TerminalCaps :=
  { true_color := false, hyperlinks := true, unicode := false, basic_ansi := false }

/-- The event stream the parser produces for a table with header cells
`A | BB | CCC` and one data row `1 | 2 | 3`. -/
def c2Events : List Event :=
  [.start .table, .start .tableHead,
   .start .tableCell, .text ("A".data), .end' .tableCell,
   .start .tableCell, .text ("BB".data), .end' .tableCell,
   .start .tableCell, .text ("CCC".data), .end' .tableCell,
   .end' .tableHead,
   .start .tableRow,
   .start .tableCell, .text ("1".data), .end' .tableCell,
   .start .tableCell, .text ("2".data), .end' .tableCell,
   .start .tableCell, .text ("3".data), .end' .tableCell,
   .end' .tableRow,
   .end' .table]

/-- The non-blank lines of the rendered `c2Events` table under the
basic-profile-with-ANSI-off rendering. -/
def c2Lines : List Str :=
  (linesOf (renderEvents c2Events TerminalCaps.basic)).filter (fun l => !l.isEmpty)

/-- A line consisting solely of ASCII border glyphs `+`/`-`: a border or
header/body separator line of an ASCII-mode table. -/
def isSepLine (l : Str) : Bool := !l.isEmpty && l.all (fun c => c == '+' || c == '-')

/-- The event stream for `**bold *and italic* still bold**`. -/
def c3Events : List Event :=
  [.start .paragraph, .start .strong, .text ("bold ".data), .start .emphasis,
   .text ("and italic".data), .end' .emphasis, .text (" still bold".data),
   .end' .strong, .end' .paragraph]

/-- The event stream for `[text](http://x)`. -/
def c4Events : List Event :=
  [.start .paragraph, .start (.link ("http://x".data) ("".data)),
   .text ("text".data), .end' .link, .end' .paragraph]

/-- A text run arriving while a link is pending inside a table cell: the
prefix of the event stream of a table whose first header cell holds
`[t](u)`. -/
def c1Events : List Event :=
  [.start .table, .start .tableHead, .start .tableCell,
   .start (.link ("u".data) ("".data)), .text ("t".data)]

/-- The renderer state after processing `c1Events`. -/
def c1State : RendererState :=
  c1Events.foldl RendererState.process_event (RendererState.new TerminalCaps.basic)

/-- A markdown input carrying a raw escape byte in a text run (the parser
passes text through verbatim, so the file `"\x1b"` produces this stream). -/
def c5BadEvents : List Event :=
  [.start .paragraph, .text ("\x1b".data), .end' .paragraph]

/-- A small well-behaved event stream used to witness the cleanliness
invariant. -/
def c5CleanEvents : List Event :=
  [.start (.heading .h1), .text ("Title".data), .end' .heading,
   .start .paragraph, .text ("hello".data), .end' .paragraph]

/-- A character the basic-profile renderer may emit: not the ANSI escape
byte 0x1b, and not a box-drawing glyph (U+2500 - U+257F). -/
def goodChar (c : Char) : Bool :=
  c.toNat != 27 && (decide (c.toNat < 0x2500) || decide (0x257F < c.toNat))

/-- Every character of the string is `goodChar`. -/
def goodStr (s : Str) : Bool := s.all goodChar

/-- The string payloads of a start tag are clean. -/
def tagClean : Tag → Bool
  | .codeBlock (.fenced lang) => goodStr lang
  | .link dest_url title => goodStr dest_url && goodStr title
  | .image dest_url title => goodStr dest_url && goodStr title
  | _ => true

/-- The string payloads of an event are clean. -/
def eventClean : Event → Bool
  | .start tag => tagClean tag
  | .text s => goodStr s
  | .code s => goodStr s
  | _ => true

/-- Does the string start with two newline characters? -/
def startsTwoNL : Str → Bool
  | a :: b :: _ => a == '\n' && b == '\n'
  | _ => false

/-- Does the string end with two newline characters (i.e. with more than
a single trailing newline / a trailing blank line)? -/
def endsWithTwoNL (l : Str) : Bool := startsTwoNL l.reverse

/-- The cleanliness invariant carried through a basic-profile render: the
profile is the all-false basic one and every buffered string — the output,
the pending link text and URL, the current cell, and all buffered table
rows — contains no escape byte and no box-drawing glyph. -/
def stateClean (s : RendererState) : Prop :=
  s.caps = TerminalCaps.basic ∧
  goodStr s.output = true ∧
  goodStr s.link_text = true ∧
  goodStr s.current_cell = true ∧
  (∀ c ∈ s.table_row, goodStr c = true) ∧
  (∀ r ∈ s.table_rows, ∀ c ∈ r, goodStr c = true) ∧
  (∀ u t, s.pending_link = some (u, t) → goodStr u = true)

theorem startsTwoNL_trimRev : ∀ l : Str, startsTwoNL (trimRev l) = false := by
  intro l
  induction l with
  | nil => rfl
  | cons a t ih =>
    cases t with
    | nil => rfl
    | cons b rest =>
      unfold trimRev
      split
      · exact ih
      · rename_i h
        simp only [startsTwoNL]
        simpa using h

theorem trimRev_all (p : Char → Bool) :
    ∀ l : Str, l.all p = true → (trimRev l).all p = true := by
  intro l
  induction l with
  | nil => intro h; exact h
  | cons a t ih =>
    cases t with
    | nil => intro h; exact h
    | cons b rest =>
      intro h
      unfold trimRev
      split
      · apply ih
        simp only [List.all_cons, Bool.and_eq_true] at h ⊢
        exact ⟨h.2.1, h.2.2⟩
      · exact h

theorem finish_getLast (s : RendererState) : s.finish.getLast? = some '\n' := by
  unfold RendererState.finish
  dsimp only
  split
  · rename_i h
    simpa using h
  · show (_ ++ ['\n']).getLast? = some '\n'
    exact List.getLast?_concat _

theorem finish_no2 (s : RendererState) : endsWithTwoNL s.finish = false := by
  unfold RendererState.finish endsWithTwoNL
  dsimp only
  split
  · rw [List.reverse_reverse]
    exact startsTwoNL_trimRev _
  · rename_i h
    rw [List.getLast?_reverse] at h
    have hrw : ((trimRev s.output.reverse).reverse ++ "\n".data).reverse
        = '\n' :: trimRev s.output.reverse := by simp
    rw [hrw]
    cases hl : trimRev s.output.reverse with
    | nil => rfl
    | cons c cs =>
      rw [hl] at h
      simp only [List.head?_cons] at h
      simp only [startsTwoNL, beq_self_eq_true, Bool.true_and]
      cases hc2 : (c == '\n') with
      | false => rfl
      | true =>
        exfalso
        apply h
        simpa using hc2

/-- Claim C6: for every event stream (hence every markdown input) and every
capability profile, the finished output of the terminal renderer ends with
a newline and never with two — finalization trims any run of trailing
blank lines down to exactly one trailing newline. -/
theorem renderToTerminal_single_trailing_newline (evs : List Event) (caps : TerminalCaps) :
    (renderEvents evs caps).getLast? = some '\n' ∧
    endsWithTwoNL (renderEvents evs caps) = false :=
  ⟨finish_getLast _, finish_no2 _⟩

/-- Claim C9: for every event stream and capability profile the rendered
string is non-empty and ends with exactly one newline; in particular the
empty input renders to exactly the one-character string containing a
newline. -/
theorem renderToTerminal_nonempty_ends_newline :
    (∀ (evs : List Event) (caps : TerminalCaps),
        renderEvents evs caps ≠ [] ∧ (renderEvents evs caps).getLast? = some '\n' ∧
        endsWithTwoNL (renderEvents evs caps) = false) ∧
    (∀ caps : TerminalCaps, renderEvents [] caps = ['\n']) := by
  constructor
  · intro evs caps
    refine ⟨?_, finish_getLast _, finish_no2 _⟩
    intro hnil
    have hg := finish_getLast (evs.foldl RendererState.process_event (RendererState.new caps))
    rw [show renderEvents evs caps
        = (evs.foldl RendererState.process_event (RendererState.new caps)).finish from rfl] at hnil
    rw [hnil] at hg
    cases hg
  · intro caps
    rfl

/-- Claim C10: ending a table while no rows are buffered leaves the whole
state unchanged except for clearing `in_table`; in particular the output
buffer is untouched and no border or separator line is emitted. -/
theorem end_table_no_rows (s : RendererState) (h : s.table_rows = []) :
    s.end_tag TagEnd.table = { s with in_table := false } := by
  simp [RendererState.end_tag, RendererState.render_table, h]

theorem end_table_no_rows_witness :
    (RendererState.new TerminalCaps.basic).end_tag TagEnd.table
      = { RendererState.new TerminalCaps.basic with in_table := false } :=
  end_table_no_rows (RendererState.new TerminalCaps.basic) rfl

/-- Claim C8: for every environment snapshot, `detect` gives `basic_ansi`
and `unicode` the same value, and both are true exactly when a
full-feature terminal host is detected, or the terminal-type variable is
non-empty, or the host platform is Windows. -/
theorem detect_basic_ansi_eq_unicode (env : Env) :
    (TerminalCaps.detect env).basic_ansi = (TerminalCaps.detect env).unicode ∧
    (TerminalCaps.detect env).unicode =
      (env.wt_session
        || (env.vscode_injection || (env.term_program == some ("vscode".data)))
        || env.conemu_pid
        || !env.term.isEmpty || env.windows) := by
  rcases env with ⟨wt, vs, tp, ce, ct, t, w⟩
  cases wt <;> cases vs <;> cases ce <;>
    cases htp : (tp == some ("vscode".data)) <;>
      simp [TerminalCaps.detect, htp]

/-- Claim C7, counterexample: the plain-text converter's parser options are
not those of the terminal converter — `markdown_to_plain_text` passes
`Options::empty()`, so tables, footnotes, strikethrough and task lists are
all disabled there while the terminal converter enables all four. -/
theorem plainText_options_not_terminal : plainTextOptions ≠ terminalOptions := by decide

/-- Claim C7, amended: `markdown_to_plain_text` invokes its parser with
`Options::empty()` (no extensions), unlike the terminal and HTML
converters, which share the identical all-four-extensions configuration. -/
theorem plainText_options_empty :
    plainTextOptions = ParserOptions.empty ∧ htmlOptions = terminalOptions ∧
    terminalOptions =
      { tables := true, footnotes := true, strikethrough := true, tasklists := true } :=
  ⟨rfl, rfl, rfl⟩

/-- Claim C1, counterexample: after a Text event arrives while a link is
pending inside a table cell, the text sits in the link-text buffer and the
current cell buffer is empty — the text did *not* route to the table-cell
buffer, contradicting the claim. -/
theorem text_in_table_cell_link_counterexample :
    c1State.in_table = true ∧ c1State.pending_link.isSome = true ∧
    c1State.link_text = "t".data ∧ c1State.current_cell = [] := by decide

/-- Claim C1, amended: link buffering takes priority: whenever a link is
pending — in particular when a table is simultaneously being built — a
Text event routes into the link-text buffer only, leaving the table-cell
buffer and the output buffer unchanged (so exactly one buffer receives
each Text event). -/
theorem text_link_priority (s : RendererState) (t : Str)
    (hlink : s.pending_link.isSome = true) (htable : s.in_table = true) :
    (s.text t).link_text = s.link_text ++ t ∧
    (s.text t).current_cell = s.current_cell ∧
    (s.text t).output = s.output := by
  unfold RendererState.text
  rw [if_pos hlink]
  exact ⟨rfl, rfl, rfl⟩

theorem text_link_priority_witness :
    (c1State.text ("x".data)).link_text = c1State.link_text ++ "x".data ∧
    (c1State.text ("x".data)).current_cell = c1State.current_cell ∧
    (c1State.text ("x".data)).output = c1State.output :=
  text_link_priority c1State ("x".data) (by decide) (by decide)

/-- Claim C2: rendering the `A | BB | CCC` / `1 | 2 | 3` table yields five
non-blank lines (top border, header, separator, data row, bottom border),
all of identical character width 19 (three columns of width 3 = max(cell
widths, floor 3) plus padding and borders), with the header row at index 1
and the header/body separator line immediately after it at index 2. -/
theorem table_row_alignment :
    tableColWidths [["A".data, "BB".data, "CCC".data], ["1".data, "2".data, "3".data]]
      = [3, 3, 3] ∧
    c2Lines.length = 5 ∧
    (∀ l ∈ c2Lines, l.length = 19) ∧
    isSub ("A".data) (c2Lines.getD 1 []) = true ∧
    isSub ("BB".data) (c2Lines.getD 1 []) = true ∧
    isSub ("CCC".data) (c2Lines.getD 1 []) = true ∧
    isSepLine (c2Lines.getD 1 []) = false ∧
    isSepLine (c2Lines.getD 2 []) = true ∧
    isSub ("1".data) (c2Lines.getD 3 []) = true := by decide

/-- Claim C3: with only basic ANSI enabled, `**bold *and italic* still
bold**` renders with the bold escape re-emitted directly after the reset
that ends the inner emphasis, and the final reset occurring exactly once
at the end of the Strong span with nothing but the trailing newline after
it: bold and reset each appear exactly twice in the whole output. -/
theorem style_restoration :
    renderEvents c3Events ansiOnlyCaps =
      ansi.BOLD ++ "bold ".data ++ ansi.ITALIC ++ "and italic".data ++ ansi.RESET
        ++ ansi.BOLD ++ " still bold".data ++ ansi.RESET ++ "\n".data ∧
    countSub ansi.BOLD (renderEvents c3Events ansiOnlyCaps) = 2 ∧
    countSub ansi.RESET (renderEvents c3Events ansiOnlyCaps) = 2 := by decide

/-- Claim C4: for `[text](http://x)` — with hyperlinks off (ANSI-only
profile) the output is the styled link text followed by the literal
dimmed ` (http://x)` and contains no OSC-8 introducer; with hyperlinks on
(OSC-8-only profile) the output is the OSC-8 start sequence immediately
followed by the link text and the OSC-8 end sequence, with no literal
parenthesized URL. -/
theorem hyperlink_fallback :
    (renderEvents c4Events ansiOnlyCaps =
        ansi.FG_BLUE ++ ansi.UNDERLINE ++ "text".data ++ ansi.RESET ++ ansi.DIM
          ++ " (http://x)".data ++ ansi.RESET ++ "\n".data ∧
      isSub ("\x1b]8;;".data) (renderEvents c4Events ansiOnlyCaps) = false) ∧
    (renderEvents c4Events oscOnlyCaps =
        ansi.hyperlink_start ("http://x".data) ++ "text".data
          ++ ansi.HYPERLINK_END ++ "\n".data ∧
      isSub (" (http://x)".data) (renderEvents c4Events oscOnlyCaps) = false) := by decide

/-- Claim C5, counterexample: a markdown input whose text carries a raw
escape byte (the parser passes text runs through verbatim) renders, even
under `basicCapabilities()`, to an output containing the escape byte —
the claim fails for adversarial inputs. -/
theorem basic_caps_escape_counterexample :
    '\x1b' ∈ renderEvents c5BadEvents TerminalCaps.basic := by decide

theorem all_replicate (p : Char → Bool) (c : Char) (n : Nat) (h : p c = true) :
    (List.replicate n c).all p = true := by
  rw [List.all_eq_true]
  intro x hx
  rw [List.eq_of_mem_replicate hx]
  exact h

theorem goodChar_digitCh (n : Nat) : goodChar (digitCh n) = true := by
  unfold digitCh
  split <;> decide

theorem goodStr_reprAux : ∀ fuel n : Nat, goodStr (reprAux fuel n) = true := by
  intro fuel
  induction fuel with
  | zero => intro n; rfl
  | succ f ih =>
    intro n
    unfold reprAux
    split
    · simp only [goodStr, List.all_cons, List.all_nil, Bool.and_true]
      exact goodChar_digitCh n
    · simp only [goodStr, List.all_append, List.all_cons, List.all_nil, Bool.and_true,
        Bool.and_eq_true]
      exact ⟨ih _, goodChar_digitCh _⟩

theorem goodStr_natRepr (n : Nat) : goodStr (natRepr n) = true := goodStr_reprAux _ _

theorem goodStr_bqBars (d : Nat) : goodStr (bqBars false d) = true := by
  induction d with
  | zero => rfl
  | succ k ih =>
    unfold bqBars
    simp only [Bool.false_eq_true, if_false, goodStr, List.all_append, Bool.and_eq_true]
    refine ⟨⟨by decide, by decide⟩, ih⟩

theorem linesOf_all (p : Char → Bool) :
    ∀ s : Str, s.all p = true → ∀ l ∈ linesOf s, l.all p = true := by
  intro s
  induction s with
  | nil =>
    intro _ l hl
    simp only [linesOf, List.mem_singleton] at hl
    subst hl
    rfl
  | cons c t ih =>
    intro h l hl
    rw [List.all_cons, Bool.and_eq_true] at h
    unfold linesOf at hl
    by_cases hcn : c = '\n'
    · rw [if_pos hcn] at hl
      rcases List.mem_cons.mp hl with h1 | h2
      · subst h1; rfl
      · exact ih h.2 l h2
    · rw [if_neg hcn] at hl
      cases hrec : linesOf t with
      | nil =>
        rw [hrec] at hl
        simp only [List.mem_singleton] at hl
        subst hl
        simp only [List.all_cons, List.all_nil, Bool.and_true]
        exact h.1
      | cons l0 ls =>
        rw [hrec] at hl
        rcases List.mem_cons.mp hl with h1 | h2
        · subst h1
          have hl0 : l0.all p = true := ih h.2 l0 (by rw [hrec]; exact List.mem_cons_self _ _)
          simp only [List.all_cons, Bool.and_eq_true]
          exact ⟨h.1, hl0⟩
        · exact ih h.2 l (by rw [hrec]; exact List.mem_cons_of_mem _ h2)

theorem stripCR_all (p : Char → Bool) (l : Str) (h : l.all p = true) :
    (stripCR l).all p = true := by
  unfold stripCR
  split
  · rw [List.all_eq_true] at h ⊢
    intro x hx
    exact h x (List.dropLast_subset l hx)
  · exact h

theorem rustLines_all (p : Char → Bool) (s : Str) (h : s.all p = true) :
    ∀ l ∈ rustLines s, l.all p = true := by
  intro l hl
  unfold rustLines at hl
  split at hl
  · simp at hl
  · rcases List.mem_map.mp hl with ⟨l0, hl0, rfl⟩
    apply stripCR_all
    have hmem : l0 ∈ linesOf s := by
      split at hl0
      · exact List.dropLast_subset _ hl0
      · exact hl0
    exact linesOf_all p s h l0 hmem

theorem codeIndented_good (ls : List Str) (h : ∀ l ∈ ls, goodStr l = true) :
    goodStr (codeIndented ls) = true := by
  induction ls with
  | nil => rfl
  | cons l t ih =>
    have h1 : goodStr l = true := h l (List.mem_cons_self _ _)
    have h2 : goodStr (codeIndented t) = true :=
      ih (fun x hx => h x (List.mem_cons_of_mem _ hx))
    unfold codeIndented
    simp only [goodStr, List.all_append, Bool.and_eq_true] at h1 h2 ⊢
    repeat' apply And.intro
    all_goals first | decide | exact h1 | exact h2

theorem goodStr_hseg (w : Nat) : goodStr (hseg '-' w) = true :=
  all_replicate goodChar '-' (w + 2) (by decide)

theorem goodStr_borderInner : ∀ ws : List Nat, goodStr (borderInner '-' '+' ws) = true := by
  intro ws
  induction ws with
  | nil => rfl
  | cons w t ih =>
    cases t with
    | nil => exact goodStr_hseg w
    | cons w2 t2 =>
      unfold borderInner
      simp only [goodStr, List.all_append, List.all_cons, List.all_nil, Bool.and_true,
        Bool.and_eq_true]
      exact ⟨⟨goodStr_hseg w, by decide⟩, ih⟩

theorem goodStr_borderLine (ws : List Nat) : goodStr (borderLine '+' '+' '-' '+' ws) = true := by
  unfold borderLine
  simp only [goodStr, List.all_append, List.all_cons, List.all_nil, Bool.and_true,
    Bool.and_eq_true]
  repeat' apply And.intro
  all_goals first | decide | exact goodStr_borderInner ws

theorem goodStr_cellSeg (w : Nat) (cell : Str) (hc : goodStr cell = true) :
    goodStr (cellSeg false '|' w cell) = true := by
  unfold cellSeg
  simp only [Bool.false_eq_true, if_false, goodStr, List.all_append, List.all_cons,
    List.all_nil, Bool.and_true, Bool.and_eq_true]
  repeat' apply And.intro
  all_goals first | decide | exact hc | exact all_replicate goodChar ' ' (w - cell.length + 1) (by decide)

theorem goodStr_rowInner :
    ∀ (ws : List Nat) (row : List Str), (∀ c ∈ row, goodStr c = true) →
      goodStr (rowInner false '|' ws row) = true := by
  intro ws
  induction ws with
  | nil => intro row _; rfl
  | cons w t ih =>
    intro row h
    cases row with
    | nil =>
      unfold rowInner
      simp only [goodStr, List.all_append, Bool.and_eq_true]
      exact ⟨goodStr_cellSeg w [] rfl, ih [] (by intro c hc; cases hc)⟩
    | cons c cs =>
      unfold rowInner
      simp only [goodStr, List.all_append, Bool.and_eq_true]
      refine ⟨goodStr_cellSeg w c (h c (List.mem_cons_self _ _)), ?_⟩
      exact ih cs (fun x hx => h x (List.mem_cons_of_mem _ hx))

theorem goodStr_rowLine (ws : List Nat) (row : List Str)
    (h : ∀ c ∈ row, goodStr c = true) : goodStr (rowLine false '|' ws row) = true := by
  unfold rowLine
  simp only [goodStr, List.all_append, List.all_cons, List.all_nil, Bool.and_true,
    Bool.and_eq_true]
  repeat' apply And.intro
  all_goals first | decide | exact goodStr_rowInner ws row h

theorem goodStr_bodyRows (ws : List Nat) :
    ∀ rows : List (List Str), (∀ r ∈ rows, ∀ c ∈ r, goodStr c = true) →
      goodStr (bodyRows '|' ws rows) = true := by
  intro rows
  induction rows with
  | nil => intro _; rfl
  | cons r t ih =>
    intro h
    unfold bodyRows
    simp only [goodStr, List.all_append, Bool.and_eq_true]
    refine ⟨goodStr_rowLine ws r (h r (List.mem_cons_self _ _)), ?_⟩
    exact ih (fun x hx => h x (List.mem_cons_of_mem _ hx))

theorem goodStr_rowsSection (ws : List Nat) (rows : List (List Str))
    (h : ∀ r ∈ rows, ∀ c ∈ r, goodStr c = true) :
    goodStr (rowsSection false '|' '+' '+' '+' '-' ws rows) = true := by
  cases rows with
  | nil => rfl
  | cons first rest =>
    unfold rowsSection
    simp only [goodStr, List.all_append, Bool.and_eq_true]
    repeat' apply And.intro
    all_goals first
      | exact goodStr_rowLine ws first (h first (List.mem_cons_self _ _))
      | exact goodStr_borderLine ws
      | exact goodStr_bodyRows ws rest (fun x hx => h x (List.mem_cons_of_mem _ hx))

theorem goodStr_renderTableStr (rows : List (List Str))
    (h : ∀ r ∈ rows, ∀ c ∈ r, goodStr c = true) :
    goodStr (renderTableStr TerminalCaps.basic rows) = true := by
  unfold renderTableStr
  dsimp only [TerminalCaps.basic]
  simp only [Bool.false_eq_true, if_false, goodStr, List.all_append, Bool.and_eq_true]
  repeat' apply And.intro
  all_goals first
    | decide
    | exact goodStr_borderLine (tableColWidths rows)
    | exact goodStr_rowsSection (tableColWidths rows) rows h

theorem stateClean_push_str (s : RendererState) (h : stateClean s) (t : Str)
    (ht : goodStr t = true) : stateClean (s.push_str t) := by
  obtain ⟨hc, ho, hl, hcc, hr, hrr, hp⟩ := h
  refine ⟨hc, ?_, hl, hcc, hr, hrr, hp⟩
  show goodStr (s.output ++ t) = true
  simp only [goodStr, List.all_append, Bool.and_eq_true]
  exact ⟨ho, ht⟩

theorem stateClean_push (s : RendererState) (h : stateClean s) (c : Char)
    (hc : goodChar c = true) : stateClean (s.push c) := by
  have := stateClean_push_str s h [c]
    (by simp only [goodStr, List.all_cons, List.all_nil, Bool.and_true]; exact hc)
  exact this

theorem writeBqPref_basic (s : RendererState) (hc : s.caps = TerminalCaps.basic) :
    s.writeBqPref =
      if s.in_block_quote > 0 then s.push_str (bqBars false s.in_block_quote) else s := by
  simp only [RendererState.writeBqPref, hc, TerminalCaps.basic, RendererState.push_str,
    Bool.false_eq_true, if_false]

theorem stateClean_writeBqPref (s : RendererState) (h : stateClean s) :
    stateClean s.writeBqPref := by
  rw [writeBqPref_basic s h.1]
  split
  · exact stateClean_push_str s h _ (goodStr_bqBars s.in_block_quote)
  · exact h

theorem push_caps (s : RendererState) (c : Char) : (s.push c).caps = s.caps := rfl

theorem push_str_caps (s : RendererState) (t : Str) : (s.push_str t).caps = s.caps := rfl

theorem stateClean_text (s : RendererState) (h : stateClean s) (t : Str)
    (ht : goodStr t = true) : stateClean (s.text t) := by
  obtain ⟨hc, ho, hl, hcc, hr, hrr, hp⟩ := h
  unfold RendererState.text
  split
  · refine ⟨hc, ho, ?_, hcc, hr, hrr, hp⟩
    show goodStr (s.link_text ++ t) = true
    simp only [goodStr, List.all_append, Bool.and_eq_true]
    exact ⟨hl, ht⟩
  · split
    · refine ⟨hc, ho, hl, ?_, hr, hrr, hp⟩
      show goodStr (s.current_cell ++ t) = true
      simp only [goodStr, List.all_append, Bool.and_eq_true]
      exact ⟨hcc, ht⟩
    · split
      · refine stateClean_push_str s ⟨hc, ho, hl, hcc, hr, hrr, hp⟩ _ ?_
        exact codeIndented_good _ (rustLines_all goodChar t ht)
      · exact stateClean_push_str s ⟨hc, ho, hl, hcc, hr, hrr, hp⟩ t ht

theorem stateClean_inline_code (s : RendererState) (h : stateClean s) (t : Str)
    (ht : goodStr t = true) : stateClean (s.inline_code t) := by
  obtain ⟨hc, ho, hl, hcc, hr, hrr, hp⟩ := h
  unfold RendererState.inline_code
  split
  · refine ⟨hc, ho, hl, ?_, hr, hrr, hp⟩
    show goodStr (s.current_cell ++ "`".data ++ t ++ "`".data) = true
    simp only [goodStr, List.all_append, Bool.and_eq_true]
    repeat' apply And.intro
    all_goals first | decide | exact hcc | exact ht
  · have hgood : goodStr (" ".data ++ t ++ " ".data) = true := by
      simp only [goodStr, List.all_append, Bool.and_eq_true]
      repeat' apply And.intro
      all_goals first | decide | exact ht
    simp only [hc, push_caps, push_str_caps, TerminalCaps.basic, Bool.false_eq_true, if_false]
    exact stateClean_push_str s ⟨hc, ho, hl, hcc, hr, hrr, hp⟩ _ hgood

theorem stateClean_soft_break (s : RendererState) (h : stateClean s) :
    stateClean s.soft_break := by
  obtain ⟨hc, ho, hl, hcc, hr, hrr, hp⟩ := h
  unfold RendererState.soft_break
  split
  · refine ⟨hc, ho, ?_, hcc, hr, hrr, hp⟩
    show goodStr (s.link_text ++ " ".data) = true
    simp only [goodStr, List.all_append, Bool.and_eq_true]
    exact ⟨hl, by decide⟩
  · split
    · refine ⟨hc, ho, hl, ?_, hr, hrr, hp⟩
      show goodStr (s.current_cell ++ " ".data) = true
      simp only [goodStr, List.all_append, Bool.and_eq_true]
      exact ⟨hcc, by decide⟩
    · exact stateClean_push s ⟨hc, ho, hl, hcc, hr, hrr, hp⟩ ' ' (by decide)

theorem stateClean_hard_break (s : RendererState) (h : stateClean s) :
    stateClean s.hard_break :=
  stateClean_writeBqPref _ (stateClean_push s h '\n' (by decide))

theorem stateClean_horizontal_rule (s : RendererState) (h : stateClean s) :
    stateClean s.horizontal_rule := by
  have hc := h.1
  unfold RendererState.horizontal_rule
  simp only [hc, push_caps, push_str_caps, TerminalCaps.basic, Bool.false_eq_true, if_false]
  exact stateClean_push_str _
    (stateClean_push_str _ (stateClean_push s h '\n' (by decide)) _ (by decide)) _ (by decide)

theorem stateClean_task_list_marker (s : RendererState) (h : stateClean s) (checked : Bool) :
    stateClean (s.task_list_marker checked) := by
  have hc := h.1
  unfold RendererState.task_list_marker
  simp only [hc, push_caps, push_str_caps, TerminalCaps.basic, Bool.false_eq_true, if_false]
  cases checked
  · exact stateClean_push _ (stateClean_push_str s h _ (by decide)) ' ' (by decide)
  · exact stateClean_push _ (stateClean_push_str s h _ (by decide)) ' ' (by decide)

theorem stateClean_render_table (s : RendererState) (h : stateClean s) :
    stateClean s.render_table := by
  obtain ⟨hc, ho, hl, hcc, hr, hrr, hp⟩ := h
  unfold RendererState.render_table
  split
  · exact ⟨hc, ho, hl, hcc, hr, hrr, hp⟩
  · refine ⟨hc, ?_, hl, hcc, hr, hrr, hp⟩
    show goodStr (s.output ++ renderTableStr s.caps s.table_rows) = true
    rw [hc]
    simp only [goodStr, List.all_append, Bool.and_eq_true]
    exact ⟨ho, goodStr_renderTableStr s.table_rows hrr⟩

theorem writeBqPref_caps (s : RendererState) : (s.writeBqPref).caps = s.caps := by
  unfold RendererState.writeBqPref
  dsimp only
  repeat' split
  all_goals rfl


theorem ite_caps (c : Prop) [Decidable c] (a b : RendererState) :
    (if c then a else b).caps = if c then a.caps else b.caps := by
  split <;> rfl

theorem stateClean_start_tag (s : RendererState) (h : stateClean s) (tag : Tag)
    (htag : tagClean tag = true) : stateClean (s.start_tag tag) := by
  obtain ⟨hc, ho, hl, hcc, hr, hrr, hp⟩ := h
  have hS : stateClean s := ⟨hc, ho, hl, hcc, hr, hrr, hp⟩
  have hba : s.caps.basic_ansi = false := by rw [hc]; rfl
  have hu : s.caps.unicode = false := by rw [hc]; rfl
  cases tag with
  | heading level =>
    simp only [RendererState.start_tag, hba, push_caps, push_str_caps,
      Bool.false_eq_true, if_false]
    apply stateClean_push
    · exact ⟨hc, ho, hl, hcc, hr, hrr, hp⟩
    · decide
  | paragraph =>
    simp only [RendererState.start_tag]
    apply stateClean_writeBqPref
    split
    · exact stateClean_push s hS '\n' (by decide)
    · exact hS
  | emphasis =>
    simp only [RendererState.start_tag, hba, Bool.false_eq_true, if_false]
    exact ⟨hc, ho, hl, hcc, hr, hrr, hp⟩
  | strong =>
    simp only [RendererState.start_tag, hba, Bool.false_eq_true, if_false]
    exact ⟨hc, ho, hl, hcc, hr, hrr, hp⟩
  | strikethrough =>
    simp only [RendererState.start_tag, hba, Bool.false_eq_true, if_false]
    exact ⟨hc, ho, hl, hcc, hr, hrr, hp⟩
  | codeBlock kind =>
    cases kind with
    | indented =>
      simp only [RendererState.start_tag, hba, push_caps, push_str_caps,
        Bool.false_eq_true, if_false]
      apply stateClean_push
      · exact ⟨hc, ho, hl, hcc, hr, hrr, hp⟩
      · decide
    | fenced lang =>
      simp only [RendererState.start_tag, hba, push_caps, push_str_caps,
        Bool.false_eq_true, if_false]
      split
      · apply stateClean_push_str
        · apply stateClean_push
          · exact ⟨hc, ho, hl, hcc, hr, hrr, hp⟩
          · decide
        · simp only [goodStr, List.all_append, Bool.and_eq_true]
          repeat' apply And.intro
          all_goals first | decide | exact htag
      · apply stateClean_push
        · exact ⟨hc, ho, hl, hcc, hr, hrr, hp⟩
        · decide
  | blockQuote =>
    simp only [RendererState.start_tag]
    split
    · apply stateClean_push
      · exact ⟨hc, ho, hl, hcc, hr, hrr, hp⟩
      · decide
    · exact ⟨hc, ho, hl, hcc, hr, hrr, hp⟩
  | list start =>
    simp only [RendererState.start_tag]
    split
    · apply stateClean_push
      · exact ⟨hc, ho, hl, hcc, hr, hrr, hp⟩
      · decide
    · exact ⟨hc, ho, hl, hcc, hr, hrr, hp⟩
  | item =>
    simp only [RendererState.start_tag]
    have hbq : stateClean s.writeBqPref := stateClean_writeBqPref s hS
    split
    · rename_i idx _
      have hgood : goodStr (" ".data ++ natRepr idx ++ ". ".data) = true := by
        simp only [goodStr, List.all_append, Bool.and_eq_true]
        repeat' apply And.intro
        all_goals first | decide | exact goodStr_natRepr idx
      obtain ⟨a, b, c, d, e, f, g⟩ := stateClean_push_str _ hbq _ hgood
      exact ⟨a, b, c, d, e, f, g⟩
    · simp only [writeBqPref_caps, hu, Bool.false_eq_true, if_false]
      exact stateClean_push_str _ hbq _ (by decide)
  | link dest_url title =>
    simp only [RendererState.start_tag]
    simp only [tagClean, Bool.and_eq_true] at htag
    refine ⟨hc, ho, rfl, hcc, hr, hrr, ?_⟩
    intro u t heq
    cases heq
    exact htag.1
  | image dest_url title =>
    simp only [RendererState.start_tag, hba, push_caps, push_str_caps, ite_caps, ite_self,
      Bool.false_eq_true, if_false]
    simp only [tagClean, Bool.and_eq_true] at htag
    apply stateClean_push
    · split
      · apply stateClean_push_str
        · apply stateClean_push_str s hS
          simp only [goodStr, List.all_append, Bool.and_eq_true]
          repeat' apply And.intro
          all_goals first | decide | exact htag.1
        · simp only [goodStr, List.all_append, Bool.and_eq_true]
          repeat' apply And.intro
          all_goals first | decide | exact htag.2
      · apply stateClean_push_str s hS
        simp only [goodStr, List.all_append, Bool.and_eq_true]
        repeat' apply And.intro
        all_goals first | decide | exact htag.1
    · decide
  | table =>
    simp only [RendererState.start_tag]
    have h1 : stateClean { s with in_table := true, table_rows := [] } := by
      refine ⟨hc, ho, hl, hcc, hr, ?_, hp⟩
      intro r hrp
      cases hrp
    split
    · apply stateClean_push
      · exact h1
      · decide
    · exact h1
  | tableHead =>
    simp only [RendererState.start_tag]
    refine ⟨hc, ho, hl, hcc, ?_, hrr, hp⟩
    intro c hcp
    cases hcp
  | tableRow =>
    simp only [RendererState.start_tag]
    refine ⟨hc, ho, hl, hcc, ?_, hrr, hp⟩
    intro c hcp
    cases hcp
  | tableCell =>
    simp only [RendererState.start_tag]
    exact ⟨hc, ho, hl, rfl, hr, hrr, hp⟩
  | other =>
    simp only [RendererState.start_tag]
    exact ⟨hc, ho, hl, hcc, hr, hrr, hp⟩

theorem stateClean_end_tag (s : RendererState) (h : stateClean s) (tag : TagEnd) :
    stateClean (s.end_tag tag) := by
  obtain ⟨hc, ho, hl, hcc, hr, hrr, hp⟩ := h
  have hS : stateClean s := ⟨hc, ho, hl, hcc, hr, hrr, hp⟩
  have hba : s.caps.basic_ansi = false := by rw [hc]; rfl
  have hhy : s.caps.hyperlinks = false := by rw [hc]; rfl
  cases tag with
  | heading =>
    simp only [RendererState.end_tag, hba, push_caps, push_str_caps,
      Bool.false_eq_true, if_false]
    obtain ⟨a, b, c, d, e, f, g⟩ := stateClean_push_str s hS ("\n\n".data) (by decide)
    exact ⟨a, b, c, d, e, f, g⟩
  | paragraph =>
    simp only [RendererState.end_tag]
    exact stateClean_push_str s hS _ (by decide)
  | emphasis =>
    simp only [RendererState.end_tag, hba, Bool.false_eq_true, if_false]
    exact ⟨hc, ho, hl, hcc, hr, hrr, hp⟩
  | strong =>
    simp only [RendererState.end_tag, hba, Bool.false_eq_true, if_false]
    exact ⟨hc, ho, hl, hcc, hr, hrr, hp⟩
  | strikethrough =>
    simp only [RendererState.end_tag, hba, Bool.false_eq_true, if_false]
    exact ⟨hc, ho, hl, hcc, hr, hrr, hp⟩
  | codeBlock =>
    simp only [RendererState.end_tag, hba, push_caps, push_str_caps,
      Bool.false_eq_true, if_false]
    apply stateClean_push
    · exact ⟨hc, ho, hl, hcc, hr, hrr, hp⟩
    · decide
  | blockQuote =>
    simp only [RendererState.end_tag]
    exact ⟨hc, ho, hl, hcc, hr, hrr, hp⟩
  | list =>
    simp only [RendererState.end_tag]
    exact ⟨hc, ho, hl, hcc, hr, hrr, hp⟩
  | item =>
    simp only [RendererState.end_tag]
    split
    · apply stateClean_push
      · exact hS
      · decide
    · exact hS
  | link =>
    simp only [RendererState.end_tag, hba, hhy, push_caps, push_str_caps,
      Bool.false_eq_true, if_false]
    split
    · rename_i url ttl heq
      have h1 : stateClean { s with pending_link := none } :=
        ⟨hc, ho, hl, hcc, hr, hrr, fun u t heq2 => Option.noConfusion heq2⟩
      have h2 := stateClean_push_str _ h1 s.link_text hl
      have hgoodurl : goodStr url = true := hp url ttl heq
      have h3 := stateClean_push_str _ h2 (" (".data ++ url ++ ")".data) (by
        simp only [goodStr, List.all_append, Bool.and_eq_true]
        repeat' apply And.intro
        all_goals first | decide | exact hgoodurl)
      obtain ⟨a, b, c, d, e, f, g⟩ := h3
      exact ⟨a, b, rfl, d, e, f, g⟩
    · exact ⟨hc, ho, rfl, hcc, hr, hrr, hp⟩
  | table =>
    simp only [RendererState.end_tag]
    obtain ⟨a, b, c, d, e, f, g⟩ := stateClean_render_table s hS
    exact ⟨a, b, c, d, e, f, g⟩
  | tableHead =>
    simp only [RendererState.end_tag]
    refine ⟨hc, ho, hl, hcc, hr, ?_, hp⟩
    intro r hrm
    rcases List.mem_append.mp hrm with h1 | h2
    · exact hrr r h1
    · rw [List.mem_singleton] at h2
      subst h2
      exact hr
  | tableRow =>
    simp only [RendererState.end_tag]
    split
    · refine ⟨hc, ho, hl, hcc, hr, ?_, hp⟩
      intro r hrm
      rcases List.mem_append.mp hrm with h1 | h2
      · exact hrr r h1
      · rw [List.mem_singleton] at h2
        subst h2
        exact hr
    · exact hS
  | tableCell =>
    simp only [RendererState.end_tag]
    refine ⟨hc, ho, hl, hcc, ?_, hrr, hp⟩
    intro c hcm
    rcases List.mem_append.mp hcm with h1 | h2
    · exact hr c h1
    · rw [List.mem_singleton] at h2
      subst h2
      exact hcc
  | other =>
    simp only [RendererState.end_tag]
    exact hS

theorem stateClean_process_event (s : RendererState) (h : stateClean s) (e : Event)
    (he : eventClean e = true) : stateClean (s.process_event e) := by
  cases e with
  | start tag => exact stateClean_start_tag s h tag he
  | end' tag => exact stateClean_end_tag s h tag
  | text t => exact stateClean_text s h t he
  | code t => exact stateClean_inline_code s h t he
  | softBreak => exact stateClean_soft_break s h
  | hardBreak => exact stateClean_hard_break s h
  | rule => exact stateClean_horizontal_rule s h
  | taskListMarker checked => exact stateClean_task_list_marker s h checked
  | other => exact h

theorem stateClean_foldl :
    ∀ (evs : List Event) (s : RendererState), stateClean s →
      (∀ e ∈ evs, eventClean e = true) →
      stateClean (evs.foldl RendererState.process_event s) := by
  intro evs
  induction evs with
  | nil => intro s hs _; exact hs
  | cons e t ih =>
    intro s hs hall
    simp only [List.foldl_cons]
    exact ih _ (stateClean_process_event s hs e (hall e (List.mem_cons_self _ _)))
      (fun x hx => hall x (List.mem_cons_of_mem _ hx))

theorem stateClean_new : stateClean (RendererState.new TerminalCaps.basic) := by
  refine ⟨rfl, rfl, rfl, rfl, ?_, ?_, ?_⟩
  · intro c hc
    cases hc
  · intro r hrp
    cases hrp
  · intro u t heq
    exact Option.noConfusion heq

/-- Claim C5, amended: the basic-profile renderer itself introduces no ANSI
escape byte and no box-drawing glyph: for every event stream whose string
payloads (text runs, inline code, link URLs and titles, image URLs and
titles, code-fence language labels) are free of the escape byte 0x1b and
of box-drawing glyphs, the entire rendered output is free of them too.
(The unrestricted claim fails only because payloads flow through
verbatim — see the counterexample.) -/
theorem basic_caps_no_escape_no_boxglyph (evs : List Event)
    (h : ∀ e ∈ evs, eventClean e = true) :
    goodStr (renderEvents evs TerminalCaps.basic) = true := by
  have hst := stateClean_foldl evs (RendererState.new TerminalCaps.basic) stateClean_new h
  obtain ⟨-, ho, -⟩ := hst
  unfold renderEvents RendererState.finish
  dsimp only
  have htrim :
      goodStr ((trimRev ((evs.foldl RendererState.process_event
        (RendererState.new TerminalCaps.basic)).output).reverse).reverse) = true := by
    simp only [goodStr, List.all_reverse]
    apply trimRev_all
    simp only [List.all_reverse]
    exact ho
  split
  · exact htrim
  · simp only [goodStr, List.all_append, Bool.and_eq_true]
    exact ⟨htrim, by decide⟩

theorem basic_caps_no_escape_witness :
    goodStr (renderEvents c5CleanEvents TerminalCaps.basic) = true :=
  basic_caps_no_escape_no_boxglyph c5CleanEvents (by decide)
